/-
Verification of the PDF-Weight plotting scripts' numerical core.

The five C++ sources (plot_pdf_variations_BJ_v3/BJ_v4/CG_v3/CG_mj_bin_v2/
CG_mj_bin_v3.cpp) share one pipeline: a bin classifier, a replica
accumulator (sample mode in the BJ variants, sum mode in the CG variants),
and an envelope (16th/84th percentile) computation.
This file shallowly embeds that core: C++ `double`/`float` values become
`ℚ` (every operation used — addition, division, comparison — is exact on
the inputs at issue), `std::vector` becomes `List`, the indexed accumulator
arrays become functions out of `ℕ`, and fallible indexing (`vector::at`,
which throws, and out-of-bounds `operator[]`, which is undefined behavior)
becomes `Option`.
-/
import Mathlib

namespace PDFWeight

/-- The fixed bin catalog `binNumbers[14]`, identical in all five sources:
bin 34 is intentionally absent. -/
def binNumbers : List Int := [22, 23, 24, 25, 26, 27, 28, 29, 30, 31, 32, 33, 35, 36]

/-- `getIdx` from the sources: linear scan over `binNumbers`, returning the
first index holding `binNum`, or `-1` when absent. -/
def getIdx (binNum : Int) : Int :=
  match binNumbers.findIdx? (fun b => b == binNum) with
  | some i => (i : Int)
  | none => -1

/-- The jet category computed at the top of `getBinNumber`:
`[4,5] → 0`, `[6,7] → 1`, `[8,∞) → 2`, otherwise `-1`. -/
def jetCat (njets : Int) : Int :=
  if 4 ≤ njets ∧ njets ≤ 5 then 0
  else if 6 ≤ njets ∧ njets ≤ 7 then 1
  else if 8 ≤ njets then 2
  else -1

/-- `getBinNumber(njets, nbm)` from the sources (identical in all five):
maps jet count and b-tag count to a physical bin number, or `-1`. -/
def getBinNumber (njets nbm : Int) : Int :=
  if jetCat njets = -1 then -1
  else if nbm = 0 then 22 + jetCat njets
  else if nbm = 1 then 25 + jetCat njets
  else if nbm = 2 then 28 + jetCat njets
  else if nbm = 3 then 31 + jetCat njets
  else if 4 ≤ nbm then
    (if jetCat njets = 0 then 31
     else if jetCat njets = 1 then 35
     else if jetCat njets = 2 then 36 else -1)
  else -1

/-- `getMjBinIndex(mj12)` from the CG_mj_bin variants: thresholds the
secondary scalar at 500 / 800 / 1100. -/
def getMjBinIndex (mj12 : ℚ) : Int :=
  if 500 ≤ mj12 ∧ mj12 < 800 then 0
  else if 800 ≤ mj12 ∧ mj12 < 1100 then 1
  else if 1100 ≤ mj12 then 2
  else -1

/-- `std::sort(v.begin(), v.end())` on a `vector<double>`: sort ascending.
(Which sorting algorithm is irrelevant; only the sorted result is used.) -/
def sortAsc (l : List ℚ) : List ℚ := l.insertionSort (· ≤ ·)

/-- `(int)(N * 0.16)` from BJ_v3 line 171 / BJ_v4 line 162: floor of
`N * 0.16`. (Exact for every list length arising here: the double product
`N * 0.16` truncates to `⌊16N/100⌋` for all `N` well below `2^45`.) -/
def bjIdx16 (N : ℕ) : ℕ := 16 * N / 100

/-- `(int)(N * 0.84)` followed by `if (idx_84 >= N) idx_84 = N - 1;`
from BJ_v3 lines 172-173 / BJ_v4 lines 163-164. -/
def bjIdx84 (N : ℕ) : ℕ := if N ≤ 84 * N / 100 then N - 1 else 84 * N / 100

/-- The per-bin envelope step of the BJ (sample-mode) variants
(BJ_v3 lines 160-192, BJ_v4 lines 153-164): nothing is produced for an
empty sample list; otherwise the list is sorted ascending and the elements
at `bjIdx16`/`bjIdx84` are the selected 16th/84th-percentile samples. -/
def envelopeBJ (events : List ℚ) : Option (ℚ × ℚ) :=
  if events.length = 0 then none
  else
    some ((sortAsc events).getD (bjIdx16 events.length) 0,
          (sortAsc events).getD (bjIdx84 events.length) 0)

/-- The envelope selection of the CG (sum-mode) variants (CG_v3 lines
163-166, CG_mj_bin_v2 lines 240-243, CG_mj_bin_v3 lines 230-233): sort the
collected values and take the elements at the fixed 0-based positions 15
and 83 (`val_16 = sorted[15]`, `val_84 = sorted[83]`). -/
def cgSelect (values : List ℚ) : ℚ × ℚ :=
  ((sortAsc values).getD 15 0, (sortAsc values).getD 83 0)

/-- The list of doubles 1, 2, ..., 100 used by the spec's envelope test. -/
def oneTo100 : List ℚ := (List.range 100).map (fun i : ℕ => ((i : ℚ) + 1))

/-- An event record as read from the tree branches: `nleps`, `njets`,
`nbm`, `mj12`, and the `weight` vector (C++ `vector<float>`). -/
structure EventRec where
  nleps : Int
  njets : Int
  nbm : Int
  mj12 : ℚ
  weight : List ℚ

/-- The sum-mode accumulator of the CG_mj_bin variants:
`bin_mj_replica_sums[bIdx][mIdx][k]` (14 × 3 × 100 nested vectors of
running sums), embedded as a total function on indices. -/
def AccState := ℕ → ℕ → ℕ → ℚ

/-- The freshly initialized accumulator: every cell `0.0`. -/
def initAcc : AccState := fun _ _ _ => 0

/-- Writing one accumulator cell: `sums[b][m][k] = v`. -/
def updAcc (st : AccState) (b m k : ℕ) (v : ℚ) : AccState :=
  fun b' m' k' => if b' = b ∧ m' = m ∧ k' = k then v else st b' m' k'

/-- The replica loop of CG_mj_bin_v2 lines 189-191 / CG_mj_bin_v3 lines
172-174: `for(k = 0; k < 100; ++k) sums[bIdx][mIdx][k] += weight.at(k)`.
(`at(k)` is in bounds here because the caller checked `size >= 100`.) -/
def addWeights (s : AccState) (b m : ℕ) (w : List ℚ) : AccState :=
  (List.range 100).foldl (fun st k => updAcc st b m k (st b m k + w.getD k 0)) s

/-- The guarded sum-mode accumulation of CG_mj_bin_v2 lines 188-192 /
CG_mj_bin_v3 lines 171-175: run the replica loop only when the weight
vector has at least 100 entries, otherwise leave the accumulator
untouched. -/
def sumModeAccum (s : AccState) (b m : ℕ) (w : List ℚ) : AccState :=
  if 100 ≤ w.length then addWeights s b m w else s

/-- One full event of the CG_mj_bin_v3 event loop (lines 156-176):
the selection cuts followed by sum-mode accumulation. -/
def stepCGmj (s : AccState) (e : EventRec) : AccState :=
  if e.weight.length = 0 then s
  else if e.nleps ≠ 1 then s
  else if getBinNumber e.njets e.nbm = -1 then s
  else if getIdx (getBinNumber e.njets e.nbm) = -1 then s
  else if getMjBinIndex e.mj12 = -1 then s
  else sumModeAccum s (getIdx (getBinNumber e.njets e.nbm)).toNat
        (getMjBinIndex e.mj12).toNat e.weight

/-- The whole accumulation pass: fold the event list through `stepCGmj`. -/
def accumulateCGmj (evs : List EventRec) (s : AccState) : AccState :=
  evs.foldl stepCGmj s

/-- The sum-mode accumulator of CG_v3: `bin_replica_sums[bIdx][k]`,
14 vectors of 100 running sums each. -/
def AccStateV3 := ℕ → ℕ → ℚ

/-- Writing one CG_v3 accumulator cell. -/
def updAccV3 (st : AccStateV3) (b k : ℕ) (v : ℚ) : AccStateV3 :=
  fun b' k' => if b' = b ∧ k' = k then v else st b' k'

/-- The replica loop of CG_v3 lines 130-132:
`for(k = 0; k <= 100; ++k) bin_replica_sums[bIdx][k] += weight_vec->at(k)`
— note the `<=`, giving 101 iterations. `at(k)` with `k` out of range
throws `std::out_of_range` (`none`); the `+=` write to
`bin_replica_sums[bIdx][k]` with `k = 100` is past the end of the
100-element inner vector, undefined behavior (`none`). -/
def addWeightsV3 (s : AccStateV3) (b : ℕ) (w : List ℚ) : Option AccStateV3 :=
  (List.range 101).foldlM (fun st k =>
    match w.get? k with
    | none => none
    | some wk => if k < 100 then some (updAccV3 st b k (st b k + wk)) else none) s

/-- The guarded sum-mode accumulation of CG_v3 lines 129-133: run the
(overrunning) replica loop only when the weight vector has at least 100
entries. -/
def sumModeAccumV3 (s : AccStateV3) (b : ℕ) (w : List ℚ) : Option AccStateV3 :=
  if 100 ≤ w.length then addWeightsV3 s b w else some s

/-- The fresh CG_v3 accumulator: every cell `0.0`. -/
def initAccV3 : AccStateV3 := fun _ _ => 0

/-- The 100 cells of one inner vector of `bin_replica_sums` (CG_v3 line
107: `vector<vector<double>>(nBins, vector<double>(100, 0.0))`), as a
list. -/
def replicaSumsListV3 (s : AccStateV3) (b : ℕ) : List ℚ :=
  (List.range 100).map (fun k => s b k)

/-- The per-bin replica-yield collection of CG_v3 step 2 (lines 153-160):
`for(k = 1; k <= 100; ++k) replica_yields.push_back(bin_replica_sums[b][k])`
— note the `<=`: replica index 0 (the nominal) is excluded, and the final
read `bin_replica_sums[b][100]` is one past the end of the 100-element
inner vector, undefined behavior (`none`). -/
def collectYieldsV3 (sums : List ℚ) : Option (List ℚ) :=
  (List.range 100).foldlM (fun acc k => (sums[k + 1]?).map (fun v => acc ++ [v])) []


/-- `vector<double> current_sums = bin_mj_replica_sums[b][m]` from
CG_mj_bin_v3 line 215: the 100 accumulated replica sums of one
(bin, mj-bin) cell, as a list. -/
def replicaSumsList (s : AccState) (b m : ℕ) : List ℚ :=
  (List.range 100).map (fun k => s b m k)

/-- The zero-nominal fallback of the CG variants (CG_v3 lines 176-177,
CG_mj_bin_v2 lines 233-234, CG_mj_bin_v3 lines 218-219):
`nom = sums[0]; if (nom == 0) nom = 1.0;`. -/
def nomCG (sums : List ℚ) : ℚ := if sums.getD 0 0 = 0 then 1 else sums.getD 0 0

/-- The per-(bin, mj-bin) envelope output of CG_mj_bin_v3 lines 216-238
(same computation in CG_mj_bin_v2 lines 231-247): the emitted
(nominal, low, high) triple — nominal drawn at 1.0, low and high the
sorted 16th/84th values divided by the (fallback-corrected) nominal. -/
def cgMjEnvelope (sums : List ℚ) : ℚ × ℚ × ℚ :=
  (1, (sortAsc sums).getD 15 0 / nomCG sums, (sortAsc sums).getD 83 0 / nomCG sums)

/-- The renderer-boundary output of CG_mj_bin_v3 step 2 (lines 187-239):
the loop over all 14 physical bins and all 3 mj bins runs unconditionally,
emitting an envelope triple for every cell. -/
def emitAllCGmj (s : AccState) : List (List (ℚ × ℚ × ℚ)) :=
  (List.range 14).map (fun b =>
    (List.range 3).map (fun m => cgMjEnvelope (replicaSumsList s b m)))

/-- The per-bin envelope emission of CG_v3 (step 2 lines 149-171 together
with the ratio conversion of step 3, lines 175-182): collect the replica
yields, sort, take `sorted[15]`/`sorted[83]`, and divide by the
zero-guarded nominal `bin_replica_sums[b][0]`; the emitted triple is
(nominal drawn at 1.0, low, high). `none` when the collection reads out
of bounds. -/
def cgV3Envelope (sums : List ℚ) : Option (ℚ × ℚ × ℚ) :=
  (collectYieldsV3 sums).map (fun ys =>
    (1, (sortAsc ys).getD 15 0 / nomCG sums, (sortAsc ys).getD 83 0 / nomCG sums))

/-- The zero-nominal fallback of BJ_v3 lines 130-131:
`w_nom = weight_vec->at(0); if (w_nom == 0) w_nom = 1.0;`
(the event loop guarantees a non-empty vector before this point). -/
def nomBJ (w : List ℚ) : ℚ := if w.getD 0 0 = 0 then 1 else w.getD 0 0

/-- The weight sum of BJ_v3 lines 133-141:
`for (k = 0; k < 100; ++k) if (k < size) w_sum += weight_vec->at(k);`. -/
def bjWeightSum (w : List ℚ) : ℚ :=
  (List.range 100).foldl (fun acc k => if k < w.length then acc + w.getD k 0 else acc) 0

/-- The per-event ratio of BJ_v3 line 145: `ratio = w_sum / (w_nom * 100.0)`. -/
def ratioBJ_v3 (w : List ℚ) : ℚ := bjWeightSum w / (nomBJ w * 100)

/-- The per-event value of BJ_v4 lines 121-125:
`limit = min(size, 100); for (k = 0; k < limit; ++k) sum += at(k);
avg_val = sum / 100.0` — always divided by the constant 100. -/
def avgBJ_v4 (w : List ℚ) : ℚ :=
  ((List.range (min w.length 100)).foldl (fun acc k => acc + w.getD k 0) 0) / 100

/-- The sample-mode accumulator of the BJ variants:
`bin_data[bIdx]` / `bin_event_ratios[bIdx]`, a growing list per bin. -/
def SampState := ℕ → List ℚ

/-- The fresh sample-mode accumulator: every bin list empty. -/
def initSamp : SampState := fun _ => []

/-- One full event of the BJ_v4 event loop (lines 111-130): the selection
cuts, then `bin_data[bIdx].push_back(avg_val)`. -/
def stepBJ_v4 (s : SampState) (e : EventRec) : SampState :=
  if e.weight.length = 0 then s
  else if e.nleps ≠ 1 then s
  else if getBinNumber e.njets e.nbm = -1 then s
  else if getIdx (getBinNumber e.njets e.nbm) = -1 then s
  else fun b =>
    if b = (getIdx (getBinNumber e.njets e.nbm)).toNat
    then s b ++ [avgBJ_v4 e.weight] else s b

/-- Modelled from the spec: the Range/Binning Deriver (spec §4.4) belongs
to the one variant whose source is not among the five files under src/
(the spec describes six scripts). Single pass of running min/max with the
usual large sentinels; if no value was observed (`min > max` after the
pass) fall back to the default range [0.0, 2.0]; the bin count is
`ceil((max - min) / 0.01)`, at least 1. -/
def deriveRange (values : List ℚ) : ℚ × ℚ × ℕ :=
  let mn := values.foldl min ((10 : ℚ) ^ 9)
  let mx := values.foldl max (-((10 : ℚ) ^ 9))
  let mn2 := if mx < mn then 0 else mn
  let mx2 := if mx < mn then 2 else mx
  (mn2, mx2, max 1 (Nat.ceil ((mx2 - mn2) / (1 / 100))))

/-- The concrete short-vector event used as witness input: one lepton,
4 jets, 0 b-tags (bin 22), weight vector of length 2. -/
def evShort : EventRec :=
  { nleps := 1, njets := 4, nbm := 0, mj12 := 0, weight := [2, 4] }

lemma jetCat_cases (njets : Int) :
    jetCat njets = -1 ∨ jetCat njets = 0 ∨ jetCat njets = 1 ∨ jetCat njets = 2 := by
  unfold jetCat
  split_ifs <;> simp

lemma jetCat_eq_neg_one (njets : Int) (h : njets < 4) : jetCat njets = -1 := by
  unfold jetCat
  split_ifs <;> omega

/-- C3: the bin classifier returns no bin for jet counts below 4; otherwise,
with jet category `j` (0 for jets in [4,5], 1 for [6,7], 2 for ≥ 8), it
returns `22+j`, `25+j`, `28+j`, `31+j` for `nbm` = 0, 1, 2, 3 respectively,
and for `nbm ≥ 4` it returns 31 / 35 / 36 according to `j` = 0 / 1 / 2,
independent of the exact value of `nbm`. -/
theorem binClassifier_case_table (njets nbm : Int) :
    (njets < 4 → getBinNumber njets nbm = -1) ∧
    (4 ≤ njets ∧ njets ≤ 5 → jetCat njets = 0) ∧
    (6 ≤ njets ∧ njets ≤ 7 → jetCat njets = 1) ∧
    (8 ≤ njets → jetCat njets = 2) ∧
    (4 ≤ njets →
      (nbm = 0 → getBinNumber njets nbm = 22 + jetCat njets) ∧
      (nbm = 1 → getBinNumber njets nbm = 25 + jetCat njets) ∧
      (nbm = 2 → getBinNumber njets nbm = 28 + jetCat njets) ∧
      (nbm = 3 → getBinNumber njets nbm = 31 + jetCat njets) ∧
      (4 ≤ nbm → getBinNumber njets nbm =
        if jetCat njets = 0 then 31 else if jetCat njets = 1 then 35 else 36)) := by
  refine ⟨?_, ?_, ?_, ?_, ?_⟩
  · intro h
    unfold getBinNumber
    rw [jetCat_eq_neg_one njets h]
    simp
  · intro h; unfold jetCat; split_ifs <;> omega
  · intro h; unfold jetCat; split_ifs <;> omega
  · intro h; unfold jetCat; split_ifs <;> omega
  · intro h
    have hcat : jetCat njets = 0 ∨ jetCat njets = 1 ∨ jetCat njets = 2 := by
      unfold jetCat; split_ifs <;> omega
    rcases hcat with hc | hc | hc <;>
      refine ⟨?_, ?_, ?_, ?_, ?_⟩ <;> intro hn <;>
      simp only [getBinNumber, hc, hn] <;> norm_num <;> split_ifs <;> omega

/-- Witness for C3 at concrete inputs: jets = 2 gives no bin, and
(jets = 6, nbm = 7) lands in bin 35 via the `nbm ≥ 4` collapse rule. -/
theorem binClassifier_case_table_w :
    getBinNumber 2 0 = -1 ∧ getBinNumber 6 7 = 35 := by
  constructor
  · exact (binClassifier_case_table 2 0).1 (by decide)
  · have h := ((binClassifier_case_table 6 7).2.2.2.2 (by decide)).2.2.2.2 (by decide)
    rw [h]
    decide

lemma getBinNumber_mem_catalog (njets nbm : Int) (h : getBinNumber njets nbm ≠ -1) :
    getBinNumber njets nbm ∈ binNumbers := by
  rcases jetCat_cases njets with hc | hc | hc | hc <;>
    simp only [getBinNumber, hc] at h ⊢ <;> norm_num at h ⊢ <;>
    split_ifs at h ⊢ <;> simp_all <;> decide

lemma getIdx_catalog_range : ∀ b ∈ binNumbers, 0 ≤ getIdx b ∧ getIdx b ≤ 13 := by
  decide

/-- C4: every bin number the classifier actually returns (other than the
"no bin" sentinel `-1`) lies in the fixed 14-entry catalog, and `getIdx`
maps it to a dense index in 0..13 — so the defensive `getIdx = -1` branch
is unreachable after successful classification; `getIdx 34 = -1` since 34
is excluded from the catalog. -/
theorem binCatalog_closed (njets nbm : Int) :
    (getBinNumber njets nbm ≠ -1 →
      getBinNumber njets nbm ∈ binNumbers ∧
      0 ≤ getIdx (getBinNumber njets nbm) ∧ getIdx (getBinNumber njets nbm) ≤ 13) ∧
    getIdx 34 = -1 := by
  refine ⟨fun h => ?_, by decide⟩
  have hm := getBinNumber_mem_catalog njets nbm h
  exact ⟨hm, getIdx_catalog_range _ hm⟩

/-- Witness for C4 at (njets, nbm) = (8, 2): bin 30, catalog index 8. -/
theorem binCatalog_closed_w :
    (getBinNumber 8 2 ∈ binNumbers ∧
      0 ≤ getIdx (getBinNumber 8 2) ∧ getIdx (getBinNumber 8 2) ≤ 13) ∧
    getIdx 34 = -1 :=
  ⟨(binCatalog_closed 8 2).1 (by decide), (binCatalog_closed 8 2).2⟩

lemma oneTo100_sorted : List.Sorted (· ≤ ·) oneTo100 :=
  List.Pairwise.map _ (fun a b (h : a ≤ b) => by
    have : (a : ℚ) ≤ (b : ℚ) := by exact_mod_cast h
    linarith) (List.sorted_le_range 100)

lemma sortAsc_oneTo100 : sortAsc oneTo100 = oneTo100 :=
  List.Sorted.insertionSort_eq oneTo100_sorted

lemma oneTo100_length : oneTo100.length = 100 := by
  simp [oneTo100]

lemma oneTo100_getD (k : ℕ) (hk : k < 100) : oneTo100.getD k 0 = (k : ℚ) + 1 := by
  unfold oneTo100
  rw [List.getD_eq_getElem?_getD, List.getElem?_map, List.getElem?_range hk]
  rfl

/-- C1 counterexample: the claim asserts the envelope calculator selects
indices `floor(N*0.16)` and `floor(N*0.84)` — 16 and 84 for N = 100, giving
(17.0, 85.0) on the sorted doubles 1..100 — but the CG variants' envelope
(cited by the claim) takes the fixed sorted positions 15 and 83, yielding
(16.0, 84.0) on that exact input. -/
theorem envelope_idx_cex :
    cgSelect oneTo100 = ((16 : ℚ), (84 : ℚ)) ∧
    ((16 : ℚ), (84 : ℚ)) ≠ ((17 : ℚ), (85 : ℚ)) := by
  refine ⟨?_, by norm_num⟩
  unfold cgSelect
  rw [sortAsc_oneTo100, oneTo100_getD 15 (by norm_num), oneTo100_getD 83 (by norm_num)]
  norm_num

/-- C1 amended: the BJ sample-mode envelope selects indices
`floor(N*0.16)` and `floor(N*0.84)` (the latter clamped to N-1), which for
N = 100 are 16 and 84, yielding (17.0, 85.0) on the sorted doubles 1..100
with nominal 1.0; the CG sum-mode envelope instead selects fixed sorted
positions 15 and 83, yielding (16.0, 84.0) on the same input. -/
theorem envelope_idx_amended :
    bjIdx16 100 = 16 ∧ bjIdx84 100 = 84 ∧
    envelopeBJ oneTo100 = some ((17 : ℚ), (85 : ℚ)) ∧
    cgSelect oneTo100 = ((16 : ℚ), (84 : ℚ)) := by
  refine ⟨by decide, by decide, ?_, ?_⟩
  · unfold envelopeBJ
    rw [oneTo100_length, if_neg (by norm_num), sortAsc_oneTo100]
    have h16 : bjIdx16 100 = 16 := by decide
    have h84 : bjIdx84 100 = 84 := by decide
    rw [h16, h84, oneTo100_getD 16 (by norm_num), oneTo100_getD 84 (by norm_num)]
    norm_num
  · unfold cgSelect
    rw [sortAsc_oneTo100, oneTo100_getD 15 (by norm_num), oneTo100_getD 83 (by norm_num)]
    norm_num

/-- C6: the sample-mode envelope yields no result on an empty accumulated
list (it neither indexes the empty sequence nor divides by zero), and on
every non-empty list both selected indices are strictly in bounds of the
sorted list, so a result is produced without out-of-range access. -/
theorem emptyBin_no_result :
    envelopeBJ [] = none ∧
    ∀ (l : List ℚ), l ≠ [] →
      bjIdx16 l.length < (sortAsc l).length ∧
      bjIdx84 l.length < (sortAsc l).length ∧
      ∃ p, envelopeBJ l = some p := by
  refine ⟨rfl, fun l hl => ?_⟩
  have hlen : (sortAsc l).length = l.length := List.length_insertionSort _ l
  have hpos : 0 < l.length := List.length_pos.mpr hl
  refine ⟨?_, ?_, ?_⟩
  · rw [hlen]
    unfold bjIdx16
    rw [Nat.div_lt_iff_lt_mul (by norm_num : (0:ℕ) < 100)]
    omega
  · rw [hlen]
    unfold bjIdx84
    split_ifs with h
    · omega
    · omega
  · unfold envelopeBJ
    rw [if_neg (by omega)]
    exact ⟨_, rfl⟩

/-- Witness for C6 on the concrete non-empty list [5, 1, 3]. -/
theorem emptyBin_no_result_w :
    bjIdx16 ([(5:ℚ), 1, 3]).length < (sortAsc [(5:ℚ), 1, 3]).length ∧
    bjIdx84 ([(5:ℚ), 1, 3]).length < (sortAsc [(5:ℚ), 1, 3]).length ∧
    ∃ p, envelopeBJ [(5:ℚ), 1, 3] = some p :=
  emptyBin_no_result.2 [(5:ℚ), 1, 3] (by simp)

lemma addWeights_range_apply (w : List ℚ) (b m : ℕ) :
    ∀ (n : ℕ) (s : AccState) (b' m' k' : ℕ),
      ((List.range n).foldl (fun st k => updAcc st b m k (st b m k + w.getD k 0)) s) b' m' k' =
        if b' = b ∧ m' = m ∧ k' < n then s b' m' k' + w.getD k' 0 else s b' m' k' := by
  intro n
  induction n with
  | zero => intro s b' m' k'; simp
  | succ n ih =>
    intro s b' m' k'
    rw [List.range_succ, List.foldl_append, List.foldl_cons, List.foldl_nil]
    simp only [updAcc]
    rw [ih s b m n, ih s b' m' k']
    by_cases hb : b' = b <;> by_cases hm : m' = m <;> by_cases hk : k' = n <;>
      simp only [hb, hm, hk, true_and, and_true, false_and, and_false, if_true, if_false,
        if_neg (lt_irrefl n), Nat.lt_succ_iff_lt_or_eq] <;>
      split_ifs <;> simp_all <;> omega

lemma addWeights_apply (s : AccState) (b m : ℕ) (w : List ℚ) (b' m' k' : ℕ) :
    addWeights s b m w b' m' k' =
      if b' = b ∧ m' = m ∧ k' < 100 then s b' m' k' + w.getD k' 0 else s b' m' k' :=
  addWeights_range_apply w b m 100 s b' m' k'

set_option maxRecDepth 8192 in
/-- C2: sum-mode accumulation (the CG_mj_bin variants) adds `weight[k]`
into `sum[bin][auxBin][k]` for exactly the replica indices `k` in 0..99
when the weight vector has length ≥ 100, and leaves the accumulator
entirely untouched (no partial accumulation) when the vector is shorter —
but the CG_v3 variant's loop runs `k` from 0 through 100 inclusive, so on
a qualifying event whose weight vector has length exactly 100 it calls
`at(100)`, which throws (and for longer vectors writes
`sum[bin][100]` past the end of the 100-element vector): the accumulation
faults instead of adding indices 0..99. -/
theorem sumMode_exact_replicas :
    (∀ (s : AccState) (b m : ℕ) (w : List ℚ), 100 ≤ w.length →
      ∀ b' m' k', sumModeAccum s b m w b' m' k' =
        if b' = b ∧ m' = m ∧ k' < 100 then s b' m' k' + w.getD k' 0 else s b' m' k') ∧
    (∀ (s : AccState) (b m : ℕ) (w : List ℚ), w.length < 100 →
      sumModeAccum s b m w = s) ∧
    sumModeAccumV3 initAccV3 0 (List.replicate 100 (1 : ℚ)) = none := by
  refine ⟨?_, ?_, ?_⟩
  · intro s b m w hw b' m' k'
    unfold sumModeAccum
    rw [if_pos hw]
    exact addWeights_apply s b m w b' m' k'
  · intro s b m w hw
    unfold sumModeAccum
    rw [if_neg (by omega)]
  · rfl

/-- Witness for C2: the length-100 all-ones vector is accumulated at all
100 replica indices of cell (0, 0) by the CG_mj_bin loop, and a length-1
vector leaves the accumulator untouched. -/
theorem sumMode_exact_replicas_w :
    (sumModeAccum initAcc 0 0 (List.replicate 100 (1 : ℚ)) 0 0 5 =
      if (0:ℕ) = 0 ∧ (0:ℕ) = 0 ∧ (5:ℕ) < 100
      then initAcc 0 0 5 + (List.replicate 100 (1 : ℚ)).getD 5 0
      else initAcc 0 0 5) ∧
    sumModeAccum initAcc 0 0 [(1 : ℚ)] = initAcc :=
  ⟨sumMode_exact_replicas.1 initAcc 0 0 _ (by simp) 0 0 5,
   sumMode_exact_replicas.2.1 initAcc 0 0 [(1 : ℚ)] (by simp)⟩

/-- C8: sum-mode accumulation commutes with partitioning the event stream:
accumulating `[A, B]` and then `[C]` into the same accumulator gives
exactly the state of accumulating `[A, B, C]` in one pass, and in general
splitting any event list in two and accumulating the parts in order is the
same as one pass over the concatenation. -/
theorem sumMode_partition_assoc :
    (∀ (A B C : EventRec) (s0 : AccState),
      accumulateCGmj [A, B, C] s0 = accumulateCGmj [C] (accumulateCGmj [A, B] s0)) ∧
    (∀ (l1 l2 : List EventRec) (s : AccState),
      accumulateCGmj (l1 ++ l2) s = accumulateCGmj l2 (accumulateCGmj l1 s)) := by
  refine ⟨fun A B C s0 => rfl, fun l1 l2 s => ?_⟩
  unfold accumulateCGmj
  exact List.foldl_append _ _ _ _

lemma replicaSumsList_init (b m : ℕ) :
    replicaSumsList initAcc b m = List.replicate 100 (0 : ℚ) := by
  unfold replicaSumsList initAcc
  rw [List.map_const']
  simp

lemma sortAsc_replicate_zero : sortAsc (List.replicate 100 (0 : ℚ)) = List.replicate 100 0 :=
  List.Sorted.insertionSort_eq (List.pairwise_replicate.mpr (Or.inr le_rfl))

lemma getD_replicate_zero (k : ℕ) : (List.replicate 100 (0 : ℚ)).getD k 0 = 0 := by
  rw [List.getD_eq_getElem?_getD, List.getElem?_replicate]
  split_ifs <;> rfl

lemma cgMjEnvelope_zero : cgMjEnvelope (List.replicate 100 (0 : ℚ)) = (1, 0, 0) := by
  unfold cgMjEnvelope nomCG
  rw [sortAsc_replicate_zero, getD_replicate_zero, getD_replicate_zero, getD_replicate_zero]
  norm_num

lemma collectYieldsV3_none (sums : List ℚ) (h : sums.length = 100) :
    collectYieldsV3 sums = none := by
  unfold collectYieldsV3
  have h100 : sums[(100:ℕ)]? = none := by
    rw [List.getElem?_eq_none_iff]
    omega
  rw [show (100:ℕ) = 99 + 1 from rfl, List.range_succ, List.foldlM_append]
  cases hm : (List.range 99).foldlM
      (fun acc k => (sums[k + 1]?).map (fun v => acc ++ [v])) ([] : List ℚ) with
  | none => rfl
  | some xs =>
    simp [List.foldlM_cons, List.foldlM_nil, h100]

lemma cgV3Envelope_none (s : AccStateV3) (b : ℕ) :
    cgV3Envelope (replicaSumsListV3 s b) = none := by
  unfold cgV3Envelope
  rw [collectYieldsV3_none _ (by simp [replicaSumsListV3])]
  rfl

/-- C9 counterexample: the claim's CG_v3 scope fails — for the fresh
(all-zero) accumulator's bin 0, CG_v3's emission is not the claimed
(1, 0, 0) zero placeholder: its step-2 collection loop runs k = 1..100 and
reads `bin_replica_sums[0][100]`, one past the end of the 100-element
inner vector, so no well-defined envelope result is emitted at all. -/
theorem untouchedBin_cgV3_cex :
    cgV3Envelope (replicaSumsListV3 initAccV3 0) = none ∧
    cgV3Envelope (replicaSumsListV3 initAccV3 0) ≠ some ((1:ℚ), (0:ℚ), (0:ℚ)) := by
  have h : cgV3Envelope (replicaSumsListV3 initAccV3 0) = none :=
    cgV3Envelope_none initAccV3 0
  rw [h]
  exact ⟨rfl, by simp⟩

/-- C9 amended: in the CG_mj_bin sum-mode variants, a (bin, aux-bin) cell
into which no qualifying event was ever accumulated (all its replica sums
still 0) is not skipped: its envelope output is still produced — the zero
nominal falls back to 1.0 and the emitted low and high ratios are both
0 — and the per-cell loop runs unconditionally over all 14 × 3 cells, as
the emission for the fresh accumulator shows. In CG_v3, by contrast, no
zero placeholder is guaranteed: its step-2 collection loop reads one past
the end of the 100-element sum vector, so for every bin (untouched ones
included) the emission is undefined rather than a (1, 0, 0) result. -/
theorem untouchedBin_emits_zero :
    (∀ (s : AccState) (b m : ℕ), (∀ k, s b m k = 0) →
      cgMjEnvelope (replicaSumsList s b m) = (1, 0, 0)) ∧
    emitAllCGmj initAcc = List.replicate 14 (List.replicate 3 ((1:ℚ), (0:ℚ), (0:ℚ))) ∧
    (∀ (s : AccStateV3) (b : ℕ), cgV3Envelope (replicaSumsListV3 s b) = none) := by
  have hcell : ∀ (s : AccState) (b m : ℕ), (∀ k, s b m k = 0) →
      replicaSumsList s b m = List.replicate 100 (0 : ℚ) := by
    intro s b m hz
    unfold replicaSumsList
    rw [List.map_congr_left (fun k _ => hz k), List.map_const']
    simp
  refine ⟨fun s b m hz => ?_, ?_, fun s b => cgV3Envelope_none s b⟩
  · rw [hcell s b m hz]
    exact cgMjEnvelope_zero
  · unfold emitAllCGmj
    simp only [replicaSumsList_init, cgMjEnvelope_zero]
    rw [List.map_const', List.map_const']
    simp

/-- Witness for C9: the fresh accumulator's cell (0, 0) emits (1, 0, 0). -/
theorem untouchedBin_emits_zero_w :
    cgMjEnvelope (replicaSumsList initAcc 0 0) = (1, 0, 0) :=
  untouchedBin_emits_zero.1 initAcc 0 0 (fun _ => rfl)

/-- C5: the zero-nominal fallback — in the BJ_v3 per-event ratio and in
the CG envelope normalization the nominal used as divisor is never 0
(a 0 is replaced by 1.0 before any division), and an event whose
`weight[0]` is 0 gets ratio `w_sum / (1.0 * 100)`. -/
theorem zeroNominal_fallback :
    (∀ w : List ℚ, nomBJ w ≠ 0) ∧
    (∀ sums : List ℚ, nomCG sums ≠ 0) ∧
    (∀ sums : List ℚ, sums.getD 0 0 = 0 → nomCG sums = 1) ∧
    (∀ w : List ℚ, w.getD 0 0 = 0 → ratioBJ_v3 w = bjWeightSum w / (1 * 100)) := by
  refine ⟨?_, ?_, ?_, ?_⟩
  · intro w
    unfold nomBJ
    split_ifs with h
    · norm_num
    · exact h
  · intro sums
    unfold nomCG
    split_ifs with h
    · norm_num
    · exact h
  · intro sums h
    unfold nomCG
    rw [if_pos h]
  · intro w h
    unfold ratioBJ_v3 nomBJ
    rw [if_pos h]

/-- Witness for C5 on the weight vector [0, 2, 4] (zero nominal). -/
theorem zeroNominal_fallback_w :
    nomCG [(0:ℚ), 2, 4] = 1 ∧
    ratioBJ_v3 [(0:ℚ), 2, 4] = bjWeightSum [(0:ℚ), 2, 4] / (1 * 100) :=
  ⟨zeroNominal_fallback.2.2.1 _ rfl, zeroNominal_fallback.2.2.2 _ rfl⟩

lemma foldl_range_getD (w : List ℚ) :
    ∀ (n : ℕ) (a : ℚ),
      (List.range n).foldl (fun acc k => acc + w.getD k 0) a = a + (w.take n).sum := by
  intro n
  induction n with
  | zero => intro a; simp
  | succ n ih =>
    intro a
    rw [List.range_succ, List.foldl_append, List.foldl_cons, List.foldl_nil, ih,
      List.take_succ, List.sum_append]
    have h : w.getD n 0 = w[n]?.toList.sum := by
      rw [List.getD_eq_getElem?_getD]
      cases h : w[n]? <;> simp
    rw [h]
    ring

lemma foldl_range_getD_cond (w : List ℚ) :
    ∀ (n : ℕ) (a : ℚ),
      (List.range n).foldl (fun acc k => if k < w.length then acc + w.getD k 0 else acc) a
        = a + (w.take n).sum := by
  intro n
  induction n with
  | zero => intro a; simp
  | succ n ih =>
    intro a
    rw [List.range_succ, List.foldl_append, List.foldl_cons, List.foldl_nil, ih,
      List.take_succ, List.sum_append]
    by_cases h : n < w.length
    · rw [if_pos h]
      have hg : w.getD n 0 = w[n]?.toList.sum := by
        rw [List.getD_eq_getElem?_getD]
        cases hh : w[n]? <;> simp
      rw [hg]
      ring
    · rw [if_neg h]
      have hn : w[n]? = none := by
        rw [List.getElem?_eq_none_iff]
        omega
      simp [hn]

lemma bjWeightSum_eq_take (w : List ℚ) : bjWeightSum w = (w.take 100).sum := by
  unfold bjWeightSum
  rw [foldl_range_getD_cond, zero_add]

/-- C10: in the BJ sample-mode variants, a qualifying event whose weight
vector has length L with 0 < L < 100 is not skipped: BJ_v4 appends
`(sum of its L weights) / 100` to the bin's sample list, and the BJ_v3
per-event ratio is `(sum of its L weights) / (nominal * 100)` — the
divisor stays the fixed constant 100, deflating short-vector events
instead of excluding them. -/
theorem shortVector_not_skipped (s : SampState) (e : EventRec)
    (h1 : e.nleps = 1) (h2 : getBinNumber e.njets e.nbm ≠ -1)
    (h3 : 0 < e.weight.length) (h4 : e.weight.length < 100) :
    stepBJ_v4 s e ((getIdx (getBinNumber e.njets e.nbm)).toNat) =
      s ((getIdx (getBinNumber e.njets e.nbm)).toNat) ++ [e.weight.sum / 100] ∧
    ratioBJ_v3 e.weight = e.weight.sum / (nomBJ e.weight * 100) := by
  have hidx : getIdx (getBinNumber e.njets e.nbm) ≠ -1 := by
    have hm := getBinNumber_mem_catalog e.njets e.nbm h2
    have hr := getIdx_catalog_range _ hm
    omega
  constructor
  · have havg : avgBJ_v4 e.weight = e.weight.sum / 100 := by
      unfold avgBJ_v4
      rw [min_eq_left (le_of_lt h4), foldl_range_getD, zero_add, List.take_length]
    unfold stepBJ_v4
    rw [if_neg (by omega), if_neg (by simp [h1]), if_neg h2, if_neg hidx, if_pos rfl, havg]
  · unfold ratioBJ_v3
    rw [bjWeightSum_eq_take, List.take_of_length_le (le_of_lt h4)]

/-- Witness for C10: the length-2 weight vector [2, 4] on a qualifying
event (1 lepton, 4 jets, 0 b-tags → bin 22) is appended as 6/100, not
skipped. -/
theorem shortVector_not_skipped_w :
    stepBJ_v4 initSamp evShort ((getIdx (getBinNumber evShort.njets evShort.nbm)).toNat) =
      initSamp ((getIdx (getBinNumber evShort.njets evShort.nbm)).toNat) ++
        [evShort.weight.sum / 100] ∧
    ratioBJ_v3 evShort.weight = evShort.weight.sum / (nomBJ evShort.weight * 100) :=
  shortVector_not_skipped initSamp evShort rfl (by decide) (by decide) (by decide)

lemma foldl_min_le_init (l : List ℚ) : ∀ a : ℚ, l.foldl min a ≤ a := by
  induction l with
  | nil => intro a; simp
  | cons b t ih =>
    intro a
    rw [List.foldl_cons]
    exact le_trans (ih (min a b)) (min_le_left a b)

lemma foldl_min_le (l : List ℚ) : ∀ (a x : ℚ), x ∈ l → l.foldl min a ≤ x := by
  induction l with
  | nil => intro a x hx; cases hx
  | cons b t ih =>
    intro a x hx
    rw [List.foldl_cons]
    rcases List.mem_cons.mp hx with h | h
    · subst h
      exact le_trans (foldl_min_le_init t _) (min_le_right a x)
    · exact ih _ x h

lemma le_foldl_max_init (l : List ℚ) : ∀ a : ℚ, a ≤ l.foldl max a := by
  induction l with
  | nil => intro a; simp
  | cons b t ih =>
    intro a
    rw [List.foldl_cons]
    exact le_trans (le_max_left a b) (ih (max a b))

lemma le_foldl_max (l : List ℚ) : ∀ (a x : ℚ), x ∈ l → x ≤ l.foldl max a := by
  induction l with
  | nil => intro a x hx; cases hx
  | cons b t ih =>
    intro a x hx
    rw [List.foldl_cons]
    rcases List.mem_cons.mp hx with h | h
    · subst h
      exact le_trans (le_max_right a x) (le_foldl_max_init t _)
    · exact ih _ x h

/-- C7: the range deriver (modelled from the spec, see `deriveRange`)
makes one running min/max pass bounding every collected value, falls back
to the default range [0.0, 2.0] when no value was observed, and on the
empty input returns (0.0, 2.0, 200); on the spec's concrete example
[0.95, 1.07, 1.00] it returns min 0.95, max 1.07 and bin count 12. -/
theorem deriveRange_spec :
    deriveRange [] = (0, 2, 200) ∧
    (∀ (l : List ℚ) (x : ℚ), x ∈ l →
      (deriveRange l).1 ≤ x ∧ x ≤ (deriveRange l).2.1) ∧
    deriveRange [(19:ℚ)/20, 107/100, 1] = (19/20, 107/100, 12) := by
  refine ⟨?_, ?_, ?_⟩
  · simp only [deriveRange, List.foldl_nil]
    have h : -((10:ℚ)^9) < (10:ℚ)^9 := by norm_num
    rw [if_pos h, if_pos h]
    rw [show ((2:ℚ) - 0) / (1 / 100) = ((200:ℕ) : ℚ) by norm_num, Nat.ceil_natCast]
    norm_num
  · intro l x hx
    have hmn := foldl_min_le l ((10:ℚ)^9) x hx
    have hmx := le_foldl_max l (-((10:ℚ)^9)) x hx
    have hno : ¬ (l.foldl max (-((10:ℚ)^9)) < l.foldl min ((10:ℚ)^9)) :=
      not_lt.mpr (le_trans hmn hmx)
    simp only [deriveRange]
    rw [if_neg hno, if_neg hno]
    exact ⟨hmn, hmx⟩
  · have hmn : List.foldl min ((10:ℚ)^9) [(19:ℚ)/20, 107/100, 1] = 19/20 := by
      simp only [List.foldl_cons, List.foldl_nil]
      rw [show min ((10:ℚ)^9) (19/20) = 19/20 from min_eq_right (by norm_num),
        show min ((19:ℚ)/20) (107/100) = 19/20 from min_eq_left (by norm_num),
        show min ((19:ℚ)/20) 1 = 19/20 from min_eq_left (by norm_num)]
    have hmx : List.foldl max (-((10:ℚ)^9)) [(19:ℚ)/20, 107/100, 1] = 107/100 := by
      simp only [List.foldl_cons, List.foldl_nil]
      rw [show max (-((10:ℚ)^9)) (19/20) = 19/20 from max_eq_right (by norm_num),
        show max ((19:ℚ)/20) (107/100) = 107/100 from max_eq_right (by norm_num),
        show max ((107:ℚ)/100) 1 = 107/100 from max_eq_left (by norm_num)]
    simp only [deriveRange, hmn, hmx]
    have h : ¬ ((107:ℚ)/100 < 19/20) := by norm_num
    rw [if_neg h, if_neg h]
    rw [show ((107:ℚ)/100 - 19/20) / (1 / 100) = ((12:ℕ) : ℚ) by norm_num, Nat.ceil_natCast]
    norm_num

/-- Witness for C7: the pass over the singleton list [3] brackets its
element. -/
theorem deriveRange_spec_w :
    (deriveRange [(3:ℚ)]).1 ≤ 3 ∧ (3:ℚ) ≤ (deriveRange [(3:ℚ)]).2.1 :=
  deriveRange_spec.2.1 [(3:ℚ)] 3 (by simp)

end PDFWeight
